import Mathlib

/-!
# chelsy samples: `sample/linked_list.c` and `sample/temperature.c`

A shallow embedding of the two C programs and the properties their
specification states about them.

## Memory model of the linked-list program

* A pointer to a `node_t` is a natural number; address `0` is `NULL`.
* The heap maps every address to the contents of the `node_t` stored there.
  A block returned by `malloc` is not cleared, so the contents of the heap
  at program start are arbitrary: the program is run on every initial heap.
* `malloc` is an environment: `oracle k` is the address the `k`-th request
  (counted from 0) returns, `NULL` meaning that the request failed.  The
  program never calls `free`, so the C library hands out pairwise distinct
  non-null addresses; theorems that need this say so in a hypothesis.
* The local variables `head` and `current` are fields of the program state.
* Three fields of the state only record what happened and are never read by
  the program: `mallocCalls` (number of requests made), `checks` (the cursor
  seen by each evaluation of the loop condition) and `visited` (the value
  read by each execution of the loop body).
* The `while` loop is run with fuel: one unit per evaluation of the loop
  condition; `none` means that the fuel ran out before the loop ended.
* The `value` of a node is an integer; the program itself only stores the
  constants 1 and 2, and the traversal is stated for all integers, which
  covers the range of `int`.

## Integers of the temperature program

Every `int` operation of `temperature.c` is followed by `wrap32`, the
reduction into the 32-bit two's complement range; `/` is `Int.tdiv`, the
division truncating toward zero.  Its `for` loop is run with fuel in the
same way, and the state records the rows printed.
-/

namespace Chelsy

/-! ## printf conversions shared by both programs -/

/-- Conversion `%d` of `printf`: a minus sign when the argument is negative,
then the decimal digits of its magnitude, most significant first, without
padding. -/
def fmt_d (v : Int) : String :=
  if v < 0 then "-" ++ Nat.repr v.natAbs else Nat.repr v.natAbs

/-- Value of a string of decimal digits read most significant digit first. -/
def readDigits (cs : List Char) : Nat :=
  cs.foldl (fun acc c => 10 * acc + (c.toNat - 48)) 0

/-- Reads back a signed decimal numeral: an optional leading minus sign
followed by decimal digits. -/
def read_d (t : String) : Int :=
  match t.data with
  | '-' :: cs => - (readDigits cs : Int)
  | cs => (readDigits cs : Int)

namespace LinkedList

/-! ## `sample/linked_list.c` -/

/-- Pointer to a `node_t`. -/
abbrev Ptr := Nat

/-- The null pointer, the terminal marker of a list. -/
def NULL : Ptr := 0

/-- The C struct `node_t`: a value and the pointer to the next node. -/
structure node_t where
  value : Int
  next : Ptr
deriving DecidableEq

/-- Contents of memory: the `node_t` stored at each address. -/
abbrev Heap := Ptr → node_t

/-- Assignment `p->value = v`. -/
def Heap.setValue (h : Heap) (p : Ptr) (v : Int) : Heap :=
  fun q => if q = p then { h q with value := v } else h q

/-- Assignment `p->next = n`. -/
def Heap.setNext (h : Heap) (p : Ptr) (n : Ptr) : Heap :=
  fun q => if q = p then { h q with next := n } else h q

/-- Program state of `main` in `linked_list.c`. -/
structure State where
  /-- contents of memory -/
  heap : Heap
  /-- local variable `head` -/
  head : Ptr
  /-- local variable `current` -/
  current : Ptr
  /-- text written to standard output so far -/
  stdout : String
  /-- record: number of `malloc` requests made so far -/
  mallocCalls : Nat
  /-- record: cursor seen by each evaluation of `current != NULL`, in order -/
  checks : List Ptr
  /-- record: value read by each execution of the loop body, in order -/
  visited : List Int

/-- State at entry of `main`: nothing printed, nothing requested; the locals
are not yet declared and the heap contents `mem` are arbitrary. -/
def State.start (mem : Heap) : State :=
  { heap := mem, head := NULL, current := NULL, stdout := "",
    mallocCalls := 0, checks := [], visited := [] }

/-- Call `malloc(sizeof(node_t))`: the environment answers the request. -/
def malloc (oracle : Nat → Ptr) (s : State) : Ptr × State :=
  (oracle s.mallocCalls, { s with mallocCalls := s.mallocCalls + 1 })

/-- Call `printf("%d\n", v)`. -/
def printf_d_nl (s : State) (v : Int) : State :=
  { s with stdout := s.stdout ++ fmt_d v ++ "\n" }

/-- Where control is after the construction part of `main`. -/
inductive Ctl where
  /-- the process called `exit(status)` -/
  | exited (status : Int) (s : State)
  /-- control reached the statement after the construction -/
  | running (s : State)

/-- Lines 12-26 of `linked_list.c`: building the list. -/
def main_construct (oracle : Nat → Ptr) (s0 : State) : Ctl :=
  -- node_t *head = malloc(sizeof(node_t));
  let r1 := malloc oracle s0
  let s1 : State := { r1.2 with head := r1.1 }
  -- if (head == NULL) { exit(1); }
  if s1.head = NULL then Ctl.exited 1 s1
  else
    -- head->value = 1;
    let s2 : State := { s1 with heap := s1.heap.setValue s1.head 1 }
    -- head->next = malloc(sizeof(node_t));
    let r2 := malloc oracle s2
    let s3 : State := { r2.2 with heap := r2.2.heap.setNext r2.2.head r2.1 }
    -- if (head->next == NULL) { exit(1); }
    if (s3.heap s3.head).next = NULL then Ctl.exited 1 s3
    else
      -- head->next->value = 2;
      let s4 : State := { s3 with heap := s3.heap.setValue (s3.heap s3.head).next 2 }
      -- head->next->next = NULL;
      let s5 : State := { s4 with heap := s4.heap.setNext (s4.heap s4.head).next NULL }
      Ctl.running s5

/-- Lines 31-34 of `linked_list.c`: the loop
`while (current != NULL) { printf("%d\n", current->value); current = current->next; }`.
Each unit of fuel pays for one evaluation of the loop condition. -/
def main_loop : Nat → State → Option State
  | 0, _ => none
  | fuel + 1, s =>
    let s1 : State := { s with checks := s.checks ++ [s.current] }
    if s1.current ≠ NULL then
      let v := (s1.heap s1.current).value
      let s2 := printf_d_nl { s1 with visited := s1.visited ++ [v] } v
      main_loop fuel { s2 with current := (s2.heap s2.current).next }
    else some s1

/-- Lines 29-34 of `linked_list.c`: `node_t *current = head;` and the loop. -/
def main_traverse (fuel : Nat) (s : State) : Option State :=
  main_loop fuel { s with current := s.head }

/-- How the process ended: its exit status and its last state. -/
structure Outcome where
  status : Int
  final : State

/-- The function `main` of `linked_list.c`; `none` when the fuel given to the
loop ran out. -/
def main (fuel : Nat) (oracle : Nat → Ptr) (mem : Heap) : Option Outcome :=
  match main_construct oracle (State.start mem) with
  | Ctl.exited status s => some { status := status, final := s }
  | Ctl.running s =>
    match main_traverse fuel s with
    | none => none
    -- return 0;
    | some sf => some { status := 0, final := sf }

/-- The heap holds a list whose nodes are, in order, at the addresses `ps`:
`p` is the first of them, each node's `next` is the address of the following
one, and the `next` of the last is `NULL`. -/
def IsList (h : Heap) : Ptr → List Ptr → Prop
  | p, [] => p = NULL
  | p, q :: qs => p = q ∧ p ≠ NULL ∧ IsList h (h p).next qs

instance IsList.instDecidable (h : Heap) : (p : Ptr) → (ps : List Ptr) → Decidable (IsList h p ps)
  | p, [] => inferInstanceAs (Decidable (p = NULL))
  | p, q :: qs =>
    have := IsList.instDecidable h (h p).next qs
    inferInstanceAs (Decidable (p = q ∧ p ≠ NULL ∧ IsList h (h p).next qs))

/-- Values stored in the nodes at the addresses `ps`. -/
def valuesAt (h : Heap) (ps : List Ptr) : List Int :=
  ps.map (fun p => (h p).value)

/-- Text of one output line per value: the value under `%d`, then a newline. -/
def linesOf (vs : List Int) : String :=
  String.join (vs.map (fun v => fmt_d v ++ "\n"))

/-- Heap left by the construction when `malloc` returned `p`, then `q`. -/
def builtHeap (mem : Heap) (p q : Ptr) : Heap :=
  (((mem.setValue p 1).setNext p q).setValue q 2).setNext q NULL

/-! ## Concrete environments used to evaluate the programs -/

/-- A heap whose cells hold stale, non-zero contents. -/
def junkHeap : Heap := fun p => { value := 7 + p, next := p + 1 }

/-- An allocator that never fails: request `k` gets address `16 * (k + 1)`. -/
def goodMalloc : Nat → Ptr := fun k => 16 * (k + 1)

/-- An allocator whose every request fails. -/
def noMalloc : Nat → Ptr := fun _ => NULL

/-- An allocator whose first request succeeds and whose later ones fail. -/
def onceMalloc : Nat → Ptr := fun k => if k = 0 then 16 else NULL

/-- A heap holding the three-node list `5, -3, 0` at addresses 4, 9, 2. -/
def sampleHeap : Heap := fun p =>
  if p = 4 then { value := 5, next := 9 }
  else if p = 9 then { value := -3, next := 2 }
  else if p = 2 then { value := 0, next := NULL }
  else { value := 99, next := p }

/-- A state whose cursor is at the head of the list in `sampleHeap`. -/
def sampleState : State :=
  { heap := sampleHeap, head := 4, current := 4, stdout := "",
    mallocCalls := 0, checks := [], visited := [] }

end LinkedList

namespace Temperature

/-! ## `sample/temperature.c` -/

/-- Macro `LOWER`. -/
def LOWER : Int := 0

/-- Macro `UPPER`. -/
def UPPER : Int := 300

/-- Macro `STEP`. -/
def STEP : Int := 20

/-- Result of an `int` operation: the mathematical result wrapped into the
range of a 32-bit two's complement integer. -/
def wrap32 (x : Int) : Int :=
  (x + 2 ^ 31) % 2 ^ 32 - 2 ^ 31

/-- The expression `5 * (fahr - 32) / 9` on `int`: the product is formed
first, the division truncates toward zero. -/
def celsius_of (fahr : Int) : Int :=
  wrap32 (Int.tdiv (wrap32 (5 * wrap32 (fahr - 32))) 9)

/-- Program state of `main` in `temperature.c`. -/
structure State where
  /-- loop variable `fahr` -/
  fahr : Int
  /-- text written to standard output so far -/
  stdout : String
  /-- record: the pairs `(fahr, celsius)` printed so far, in order -/
  rows : List (Int × Int)

/-- One table row as printed by `printf("%d\t%d\n", fahr, celsius)`. -/
def fmt_row (fahr celsius : Int) : String :=
  fmt_d fahr ++ "\t" ++ fmt_d celsius ++ "\n"

/-- The loop `for (...; fahr <= UPPER; fahr += STEP) { ... }` of
`temperature.c`, one unit of fuel per evaluation of the loop condition. -/
def main_loop : Nat → State → Option State
  | 0, _ => none
  | fuel + 1, t =>
    if t.fahr ≤ UPPER then
      -- int celsius = 5 * (fahr - 32) / 9;
      let celsius := celsius_of t.fahr
      -- printf("%d\t%d\n", fahr, celsius);
      let t1 : State :=
        { t with stdout := t.stdout ++ fmt_row t.fahr celsius,
                 rows := t.rows ++ [(t.fahr, celsius)] }
      -- fahr += STEP
      main_loop fuel { t1 with fahr := wrap32 (t1.fahr + STEP) }
    else some t

/-- The function `main` of `temperature.c`: the return value and the last
state; `none` when the fuel given to the loop ran out. -/
def main (fuel : Nat) : Option (Int × State) :=
  -- int fahr = LOWER
  match main_loop fuel { fahr := LOWER, stdout := "", rows := [] } with
  | none => none
  -- return 0;
  | some t => some (0, t)

/-- The range of the type `int`: 32-bit two's complement. -/
def inInt32 (x : Int) : Prop :=
  -2 ^ 31 ≤ x ∧ x ≤ 2 ^ 31 - 1

instance inInt32.instDecidable (x : Int) : Decidable (inInt32 x) :=
  inferInstanceAs (Decidable (-2 ^ 31 ≤ x ∧ x ≤ 2 ^ 31 - 1))

/-- Truncation of a rational toward zero, in the words of the claim: the
floor of a non-negative number, the ceiling of a negative one. -/
def truncToZero (q : ℚ) : Int :=
  if 0 ≤ q then ⌊q⌋ else ⌈q⌉

/-- The expression `5 * (fahr - 32) / 9` computed on the unbounded integers,
without any wrapping. -/
def celsius_unbounded (fahr : Int) : Int :=
  Int.tdiv (5 * (fahr - 32)) 9

/-- The loop of `temperature.c` computed on the unbounded integers: the same
statements as `main_loop`, with no operation wrapped. -/
def main_loop_unbounded : Nat → State → Option State
  | 0, _ => none
  | fuel + 1, t =>
    if t.fahr ≤ UPPER then
      let celsius := celsius_unbounded t.fahr
      let t1 : State :=
        { t with stdout := t.stdout ++ fmt_row t.fahr celsius,
                 rows := t.rows ++ [(t.fahr, celsius)] }
      main_loop_unbounded fuel { t1 with fahr := t1.fahr + STEP }
    else some t

/-- The function `main` of `temperature.c` computed on the unbounded
integers. -/
def main_unbounded (fuel : Nat) : Option (Int × State) :=
  match main_loop_unbounded fuel { fahr := LOWER, stdout := "", rows := [] } with
  | none => none
  | some t => some (0, t)

end Temperature

/-! ## Lemmas on text -/

theorem foldl_append_string (l : List String) (a : String) :
    List.foldl (fun r s => r ++ s) a l = a ++ List.foldl (fun r s => r ++ s) "" l := by
  induction l generalizing a with
  | nil => simp
  | cons x xs ih =>
    simp only [List.foldl_cons]
    rw [ih (a ++ x), ih ("" ++ x)]
    simp [String.append_assoc]

theorem digitChar_toNat (d : Nat) (h : d < 10) : (Nat.digitChar d).toNat - 48 = d := by
  interval_cases d <;> rfl

theorem digitChar_ne_minus (d : Nat) (h : d < 10) : Nat.digitChar d ≠ '-' := by
  interval_cases d <;> decide

theorem readDigits_toDigitsCore (fuel : Nat) : ∀ (n : Nat) (ds : List Char), n < fuel →
    List.foldl (fun a c => 10 * a + (c.toNat - 48)) 0 (Nat.toDigitsCore 10 fuel n ds)
      = List.foldl (fun a c => 10 * a + (c.toNat - 48)) n ds := by
  induction fuel with
  | zero => intro n ds h; omega
  | succ k ih =>
    intro n ds h
    have hd : (Nat.digitChar (n % 10)).toNat - 48 = n % 10 :=
      digitChar_toNat _ (Nat.mod_lt _ (by decide))
    simp only [Nat.toDigitsCore]
    split
    · rename_i h0
      simp only [List.foldl_cons, hd]
      congr 1
      omega
    · rename_i h0
      rw [ih (n / 10) _ (by omega)]
      simp only [List.foldl_cons, hd]
      congr 1
      omega

theorem head_toDigitsCore (fuel : Nat) : ∀ (n : Nat) (ds : List Char), n < fuel →
    ∃ d cs, d < 10 ∧ Nat.toDigitsCore 10 fuel n ds = Nat.digitChar d :: cs := by
  induction fuel with
  | zero => intro n ds h; omega
  | succ k ih =>
    intro n ds h
    simp only [Nat.toDigitsCore]
    split
    · exact ⟨n % 10, ds, Nat.mod_lt _ (by decide), rfl⟩
    · rename_i h0
      exact ih (n / 10) _ (by omega)

theorem readDigits_repr (n : Nat) : readDigits (Nat.repr n).data = n := by
  simp only [readDigits, Nat.repr, Nat.toDigits, List.asString]
  rw [readDigits_toDigitsCore (n + 1) n [] (by omega)]
  rfl

theorem read_d_fmt_d (v : Int) : read_d (fmt_d v) = v := by
  unfold fmt_d
  split
  · rename_i h
    have : ("-" ++ Nat.repr v.natAbs).data = '-' :: (Nat.repr v.natAbs).data := rfl
    simp only [read_d, this, readDigits_repr]
    omega
  · rename_i h
    obtain ⟨d, cs, hd, hcs⟩ := head_toDigitsCore (v.natAbs + 1) v.natAbs [] (by omega)
    have hdata : (Nat.repr v.natAbs).data = Nat.digitChar d :: cs := by
      simp only [Nat.repr, Nat.toDigits, List.asString]
      exact hcs
    have hr := readDigits_repr v.natAbs
    have hne := digitChar_ne_minus d hd
    unfold read_d
    split
    · rename_i csf heq
      rw [hdata] at heq
      injection heq with h1 h2
      exact absurd h1 hne
    · rw [hr]; omega

namespace LinkedList

/-! ## Lemmas on the lines printed -/

theorem linesOf_nil : linesOf [] = "" := rfl

theorem linesOf_cons (v : Int) (vs : List Int) :
    linesOf (v :: vs) = fmt_d v ++ "\n" ++ linesOf vs := by
  unfold linesOf String.join
  simp only [List.map_cons, List.foldl_cons]
  rw [foldl_append_string]
  simp

/-! ## Lemmas on lists in the heap and on the traversal loop -/

theorem IsList.ne_null {h : Heap} {p : Ptr} {ps : List Ptr} (hl : IsList h p ps) :
    ∀ q ∈ ps, q ≠ NULL := by
  induction ps generalizing p with
  | nil => intro q hq; cases hq
  | cons a as ih =>
    obtain ⟨h1, h2, h3⟩ := hl
    intro q hq
    rcases List.mem_cons.mp hq with rfl | hq
    · exact h1 ▸ h2
    · exact ih h3 q hq

theorem IsList.unique {h : Heap} {p : Ptr} {ps qs : List Ptr}
    (h1 : IsList h p ps) (h2 : IsList h p qs) : ps = qs := by
  induction ps generalizing p qs with
  | nil =>
    cases qs with
    | nil => rfl
    | cons b bs => exact absurd h1 h2.2.1
  | cons a as ih =>
    cases qs with
    | nil => exact absurd h2 h1.2.1
    | cons b bs =>
      obtain ⟨e1, _, t1⟩ := h1
      obtain ⟨e2, _, t2⟩ := h2
      rw [← e1, ← e2, ih t1 t2]

theorem IsList.tail_from {h : Heap} {p : Ptr} {ps : List Ptr} (hl : IsList h p ps) :
    ∀ q ∈ ps, ∃ qs, IsList h q qs ∧ qs.length ≤ ps.length ∧ (q ≠ p → qs.length < ps.length) := by
  induction ps generalizing p with
  | nil => intro q hq; cases hq
  | cons a as ih =>
    obtain ⟨h1, h2, h3⟩ := hl
    intro q hq
    rcases List.mem_cons.mp hq with rfl | hq
    · exact ⟨q :: as, ⟨rfl, h1 ▸ h2, h1 ▸ h3⟩, le_refl _, fun hne => absurd h1.symm hne⟩
    · obtain ⟨qs, hqs, hlen, _⟩ := ih h3 q hq
      exact ⟨qs, hqs, by simp; omega, fun _ => by simp; omega⟩

/-- A list in the heap never visits an address twice: it is acyclic. -/
theorem IsList.nodup {h : Heap} {p : Ptr} {ps : List Ptr} (hl : IsList h p ps) : ps.Nodup := by
  induction ps generalizing p with
  | nil => exact List.nodup_nil
  | cons a as ih =>
    obtain ⟨h1, h2, h3⟩ := hl
    refine List.nodup_cons.mpr ⟨?_, ih h3⟩
    intro hmem
    obtain ⟨qs, hqs, hlen, _⟩ := IsList.tail_from h3 a hmem
    have hfull : IsList h a (a :: as) := ⟨rfl, h1 ▸ h2, h1 ▸ h3⟩
    have := IsList.unique hqs hfull
    rw [this] at hlen
    simp at hlen

/-- The loop on a list in the heap: with more fuel than nodes it ends, and
its last state is the first one with the cursor at `NULL`, one line printed
per node and the records extended by the nodes passed. -/
theorem main_loop_spec (ps : List Ptr) : ∀ (fuel : Nat) (s : State),
    IsList s.heap s.current ps → ps.length < fuel →
    main_loop fuel s = some { s with
      current := NULL,
      stdout := s.stdout ++ linesOf (valuesAt s.heap ps),
      checks := s.checks ++ ps ++ [NULL],
      visited := s.visited ++ valuesAt s.heap ps } := by
  induction ps with
  | nil =>
    intro fuel s hl hf
    cases fuel with
    | zero => simp at hf
    | succ n =>
      have hc : s.current = NULL := hl
      simp [main_loop, hc, valuesAt, linesOf_nil]
  | cons q qs ih =>
    intro fuel s hl hf
    obtain ⟨h1, h2, h3⟩ := hl
    cases fuel with
    | zero => simp at hf
    | succ n =>
      have hn : qs.length < n := by simpa using hf
      simp only [main_loop, ne_eq, h2, not_false_eq_true, if_true, printf_d_nl]
      rw [ih n _ h3 hn]
      simp [valuesAt, linesOf_cons, h1, String.append_assoc]

/-- The loop on a list in the heap does not end within as many evaluations of
its condition as the list has nodes. -/
theorem main_loop_none (ps : List Ptr) : ∀ (fuel : Nat) (s : State),
    IsList s.heap s.current ps → fuel ≤ ps.length → main_loop fuel s = none := by
  induction ps with
  | nil =>
    intro fuel s _ hf
    have : fuel = 0 := by simpa using hf
    subst this; rfl
  | cons q qs ih =>
    intro fuel s hl hf
    obtain ⟨h1, h2, h3⟩ := hl
    cases fuel with
    | zero => rfl
    | succ n =>
      have hn : n ≤ qs.length := by simpa using hf
      simp only [main_loop, ne_eq, h2, not_false_eq_true, if_true, printf_d_nl]
      exact ih n _ h3 hn

/-! ## Lemmas on the construction -/

theorem main_construct_fail_first (oracle : Nat → Ptr) (mem : Heap) (h0 : oracle 0 = NULL) :
    main_construct oracle (State.start mem)
      = Ctl.exited 1 { State.start mem with mallocCalls := 1 } := by
  simp [main_construct, malloc, State.start, h0]

theorem main_construct_fail_second (oracle : Nat → Ptr) (mem : Heap)
    (h0 : oracle 0 ≠ NULL) (h1 : oracle 1 = NULL) :
    main_construct oracle (State.start mem)
      = Ctl.exited 1 { State.start mem with
          head := oracle 0, mallocCalls := 2,
          heap := (mem.setValue (oracle 0) 1).setNext (oracle 0) NULL } := by
  simp [main_construct, malloc, State.start, h0, h1, Heap.setNext, Heap.setValue]

theorem main_construct_ok (oracle : Nat → Ptr) (mem : Heap)
    (h0 : oracle 0 ≠ NULL) (h1 : oracle 1 ≠ NULL) :
    main_construct oracle (State.start mem)
      = Ctl.running { State.start mem with
          head := oracle 0, mallocCalls := 2,
          heap := builtHeap mem (oracle 0) (oracle 1) } := by
  simp [main_construct, malloc, State.start, h0, h1, Heap.setNext, Heap.setValue, builtHeap,
    apply_ite node_t.next]

theorem builtHeap_head (mem : Heap) (p q : Ptr) (hne : q ≠ p) :
    builtHeap mem p q p = { value := 1, next := q } := by
  simp [builtHeap, Heap.setNext, Heap.setValue, Ne.symm hne]

theorem builtHeap_second (mem : Heap) (p q : Ptr) :
    builtHeap mem p q q = { value := 2, next := NULL } := by
  simp [builtHeap, Heap.setNext, Heap.setValue]

theorem builtHeap_isList (mem : Heap) (p q : Ptr) (hp : p ≠ NULL) (hq : q ≠ NULL)
    (hne : q ≠ p) : IsList (builtHeap mem p q) p [p, q] := by
  refine ⟨rfl, hp, ?_⟩
  rw [builtHeap_head mem p q hne]
  refine ⟨rfl, hq, ?_⟩
  rw [builtHeap_second]
  rfl

theorem builtHeap_isList_alias (mem : Heap) (p : Ptr) (hp : p ≠ NULL) :
    IsList (builtHeap mem p p) p [p] := by
  refine ⟨rfl, hp, ?_⟩
  rw [builtHeap_second]
  rfl

/-! ## The linked-list program as a whole -/

/-- C1: when both allocations succeed (each returning a non-null block, the
second distinct from the first, which is still live), `main` of
`linked_list.c` ends for every fuel of at least 3, with standard output
exactly `1\n2\n` and exit status 0. -/
theorem main_prints_one_two (fuel : Nat) (oracle : Nat → Ptr) (mem : Heap)
    (h0 : oracle 0 ≠ NULL) (h1 : oracle 1 ≠ NULL) (hne : oracle 1 ≠ oracle 0)
    (hfuel : 3 ≤ fuel) :
    ∃ o, main fuel oracle mem = some o ∧ o.final.stdout = "1\n2\n" ∧ o.status = 0 := by
  have hl := builtHeap_isList mem (oracle 0) (oracle 1) h0 h1 hne
  have hv : valuesAt (builtHeap mem (oracle 0) (oracle 1)) [oracle 0, oracle 1] = [1, 2] := by
    simp [valuesAt, builtHeap_head mem _ _ hne, builtHeap_second]
  unfold main
  rw [main_construct_ok oracle mem h0 h1]
  simp only [main_traverse]
  rw [main_loop_spec [oracle 0, oracle 1] fuel _ hl (by simpa using hfuel)]
  refine ⟨_, rfl, ?_, rfl⟩
  simp only [hv]
  rfl

theorem main_prints_one_two_witness :
    goodMalloc 0 ≠ NULL ∧ goodMalloc 1 ≠ NULL ∧ goodMalloc 1 ≠ goodMalloc 0 ∧ 3 ≤ 3 ∧
    ∃ o, main 3 goodMalloc junkHeap = some o ∧ o.final.stdout = "1\n2\n" ∧ o.status = 0 :=
  ⟨by decide, by decide, by decide, by decide,
   main_prints_one_two 3 goodMalloc junkHeap (by decide) (by decide) (by decide) (by decide)⟩

/-- C2: for every answer of the allocator to the requests, `main` of
`linked_list.c` ends (fuel of at least 3) and its exit status is 1 exactly
when request 0 fails, or request 0 succeeds and request 1 fails; it is 0
exactly when both succeed, and it is never anything else. The number of
requests made is 1 when request 0 fails and 2 otherwise, so the status is 1
exactly when one of the requests made failed, and 0 otherwise. -/
theorem main_exit_status (fuel : Nat) (oracle : Nat → Ptr) (mem : Heap) (hfuel : 3 ≤ fuel) :
    ∃ o, main fuel oracle mem = some o ∧
      (o.status = 1 ↔ (oracle 0 = NULL ∨ (oracle 0 ≠ NULL ∧ oracle 1 = NULL))) ∧
      (o.status = 0 ↔ (oracle 0 ≠ NULL ∧ oracle 1 ≠ NULL)) ∧
      (o.status = 0 ∨ o.status = 1) ∧
      o.final.mallocCalls = (if oracle 0 = NULL then 1 else 2) ∧
      (o.status = 1 ↔ ∃ k, k < o.final.mallocCalls ∧ oracle k = NULL) ∧
      ((¬ ∃ k, k < o.final.mallocCalls ∧ oracle k = NULL) → o.status = 0) := by
  have h10 : ¬ ((1 : Int) = 0) := by decide
  have h01 : ¬ ((0 : Int) = 1) := by decide
  by_cases h0 : oracle 0 = NULL
  · unfold main
    rw [main_construct_fail_first oracle mem h0]
    refine ⟨_, rfl, ?_, ?_, Or.inr rfl, ?_, ?_, ?_⟩
    · exact ⟨fun _ => Or.inl h0, fun _ => rfl⟩
    · exact ⟨fun h => absurd h h10, fun h => absurd h0 h.1⟩
    · rw [if_pos h0]
    · exact ⟨fun _ => ⟨0, Nat.one_pos, h0⟩, fun _ => rfl⟩
    · intro hno
      exact absurd ⟨0, Nat.one_pos, h0⟩ hno
  · by_cases h1 : oracle 1 = NULL
    · unfold main
      rw [main_construct_fail_second oracle mem h0 h1]
      refine ⟨_, rfl, ?_, ?_, Or.inr rfl, ?_, ?_, ?_⟩
      · exact ⟨fun _ => Or.inr ⟨h0, h1⟩, fun _ => rfl⟩
      · exact ⟨fun h => absurd h h10, fun h => absurd h1 h.2⟩
      · rw [if_neg h0]
      · exact ⟨fun _ => ⟨1, Nat.one_lt_two, h1⟩, fun _ => rfl⟩
      · intro hno
        exact absurd ⟨1, Nat.one_lt_two, h1⟩ hno
    · have hnone : ¬ ∃ k, k < 2 ∧ oracle k = NULL := by
        intro ⟨k, hk, hz⟩
        have : k = 0 ∨ k = 1 := by omega
        rcases this with rfl | rfl
        · exact h0 hz
        · exact h1 hz
      have hloop : ∃ ps : List Ptr, ps.length ≤ 2 ∧
          IsList (builtHeap mem (oracle 0) (oracle 1)) (oracle 0) ps := by
        by_cases hne : oracle 1 = oracle 0
        · refine ⟨[oracle 0], by simp, ?_⟩
          rw [hne]
          exact builtHeap_isList_alias mem (oracle 0) h0
        · exact ⟨[oracle 0, oracle 1], by simp, builtHeap_isList mem _ _ h0 h1 hne⟩
      obtain ⟨ps, hlen, hl⟩ := hloop
      unfold main
      rw [main_construct_ok oracle mem h0 h1]
      simp only [main_traverse]
      rw [main_loop_spec ps fuel _ hl (by omega)]
      refine ⟨_, rfl, ?_, ?_, Or.inl rfl, ?_, ?_, ?_⟩
      · constructor
        · intro h; exact absurd h h01
        · intro h
          rcases h with h | h
          · exact absurd h h0
          · exact absurd h.2 h1
      · exact ⟨fun _ => ⟨h0, h1⟩, fun _ => rfl⟩
      · rw [if_neg h0]
      · constructor
        · intro h; exact absurd h h01
        · intro h; exact absurd h hnone
      · intro _; rfl

theorem main_exit_status_witness :
    3 ≤ 3 ∧ ∃ o, main 3 onceMalloc junkHeap = some o ∧
      (o.status = 1 ↔ (onceMalloc 0 = NULL ∨ (onceMalloc 0 ≠ NULL ∧ onceMalloc 1 = NULL))) ∧
      (o.status = 0 ↔ (onceMalloc 0 ≠ NULL ∧ onceMalloc 1 ≠ NULL)) ∧
      (o.status = 0 ∨ o.status = 1) ∧
      o.final.mallocCalls = (if onceMalloc 0 = NULL then 1 else 2) ∧
      (o.status = 1 ↔ ∃ k, k < o.final.mallocCalls ∧ onceMalloc k = NULL) ∧
      ((¬ ∃ k, k < o.final.mallocCalls ∧ onceMalloc k = NULL) → o.status = 0) :=
  ⟨by decide, main_exit_status 3 onceMalloc junkHeap (by decide)⟩

/-- C3: if the first allocation fails, `main` of `linked_list.c` exits with
status 1 whatever the fuel, having written nothing to standard output,
evaluated the loop condition and run the loop body not even once, and made
exactly one allocation request. -/
theorem main_first_alloc_fails (fuel : Nat) (oracle : Nat → Ptr) (mem : Heap)
    (h0 : oracle 0 = NULL) :
    ∃ o, main fuel oracle mem = some o ∧ o.status = 1 ∧ o.final.stdout = "" ∧
      o.final.checks = [] ∧ o.final.visited = [] ∧ o.final.mallocCalls = 1 := by
  unfold main
  rw [main_construct_fail_first oracle mem h0]
  exact ⟨_, rfl, rfl, rfl, rfl, rfl, rfl⟩

theorem main_first_alloc_fails_witness :
    noMalloc 0 = NULL ∧
    ∃ o, main 0 noMalloc junkHeap = some o ∧ o.status = 1 ∧ o.final.stdout = "" ∧
      o.final.checks = [] ∧ o.final.visited = [] ∧ o.final.mallocCalls = 1 :=
  ⟨by decide, main_first_alloc_fails 0 noMalloc junkHeap (by decide)⟩

/-- C4: if the first allocation succeeds and the second fails, `main` of
`linked_list.c` exits with status 1 whatever the fuel, with empty standard
output and no node visited, although the head node already holds value 1. -/
theorem main_second_alloc_fails (fuel : Nat) (oracle : Nat → Ptr) (mem : Heap)
    (h0 : oracle 0 ≠ NULL) (h1 : oracle 1 = NULL) :
    ∃ o, main fuel oracle mem = some o ∧ o.status = 1 ∧ o.final.stdout = "" ∧
      o.final.checks = [] ∧ o.final.visited = [] ∧ o.final.mallocCalls = 2 ∧
      o.final.head = oracle 0 ∧ (o.final.heap o.final.head).value = 1 := by
  unfold main
  rw [main_construct_fail_second oracle mem h0 h1]
  refine ⟨_, rfl, rfl, rfl, rfl, rfl, rfl, rfl, ?_⟩
  simp [Heap.setNext, Heap.setValue]

theorem main_second_alloc_fails_witness :
    onceMalloc 0 ≠ NULL ∧ onceMalloc 1 = NULL ∧
    ∃ o, main 0 onceMalloc junkHeap = some o ∧ o.status = 1 ∧ o.final.stdout = "" ∧
      o.final.checks = [] ∧ o.final.visited = [] ∧ o.final.mallocCalls = 2 ∧
      o.final.head = onceMalloc 0 ∧ (o.final.heap o.final.head).value = 1 :=
  ⟨by decide, by decide, main_second_alloc_fails 0 onceMalloc junkHeap (by decide) (by decide)⟩

/-! ## The traversal -/

/-- C5: on a list of `N` nodes in the heap (the `next` of the last node being
`NULL`), the traversal from `head` ends as soon as the fuel exceeds `N`, after
exactly `N` executions of the loop body, which read exactly the values of the
nodes, each once, in list order, the cursor having passed the nodes in list
order; with fuel for only `N` evaluations of the condition it does not end. -/
theorem traverse_exactly_length_steps (s : State) (ps : List Ptr)
    (hl : IsList s.heap s.head ps) :
    (∀ fuel, ps.length < fuel → ∃ sf, main_traverse fuel s = some sf ∧
        sf.visited = s.visited ++ valuesAt s.heap ps ∧
        sf.visited.length = s.visited.length + ps.length ∧
        sf.checks = s.checks ++ ps ++ [NULL]) ∧
    (∀ fuel, fuel ≤ ps.length → main_traverse fuel s = none) := by
  constructor
  · intro fuel hf
    unfold main_traverse
    rw [main_loop_spec ps fuel _ hl hf]
    refine ⟨_, rfl, rfl, ?_, rfl⟩
    simp [valuesAt]
  · intro fuel hf
    unfold main_traverse
    exact main_loop_none ps fuel _ hl hf

theorem traverse_exactly_length_steps_witness :
    IsList sampleState.heap sampleState.head [4, 9, 2] ∧
    ((∀ fuel, [4, 9, 2].length < fuel → ∃ sf, main_traverse fuel sampleState = some sf ∧
        sf.visited = sampleState.visited ++ valuesAt sampleState.heap [4, 9, 2] ∧
        sf.visited.length = sampleState.visited.length + [4, 9, 2].length ∧
        sf.checks = sampleState.checks ++ [4, 9, 2] ++ [NULL]) ∧
     (∀ fuel, fuel ≤ [4, 9, 2].length → main_traverse fuel sampleState = none)) :=
  ⟨by decide, traverse_exactly_length_steps sampleState [4, 9, 2] (by decide)⟩

/-- C6: on a list in the heap whose values are `vs`, the text the traversal
adds to standard output is the concatenation, in list order, of one line per
value, the value under `%d` followed by one newline, and nothing else; the
text of each value is a signed decimal numeral that reads back as the value. -/
theorem traverse_output (s : State) (ps : List Ptr) (vs : List Int) (fuel : Nat)
    (hl : IsList s.heap s.head ps) (hv : valuesAt s.heap ps = vs) (hf : ps.length < fuel) :
    ∃ sf, main_traverse fuel s = some sf ∧
      sf.stdout = s.stdout ++ String.join (vs.map (fun v => fmt_d v ++ "\n")) ∧
      ∀ v ∈ vs, read_d (fmt_d v) = v := by
  unfold main_traverse
  rw [main_loop_spec ps fuel _ hl hf]
  refine ⟨_, rfl, ?_, fun v _ => read_d_fmt_d v⟩
  simp only [hv, linesOf]

theorem traverse_output_witness :
    IsList sampleState.heap sampleState.head [4, 9, 2] ∧
    valuesAt sampleState.heap [4, 9, 2] = [5, -3, 0] ∧ [4, 9, 2].length < 4 ∧
    ∃ sf, main_traverse 4 sampleState = some sf ∧
      sf.stdout = sampleState.stdout ++ String.join ([5, -3, 0].map (fun v => fmt_d v ++ "\n")) ∧
      ∀ v ∈ [5, -3, 0], read_d (fmt_d v) = v :=
  ⟨by decide, by decide, by decide,
   traverse_output sampleState [4, 9, 2] [5, -3, 0] 4 (by decide) (by decide) (by decide)⟩

/-- C8: when both allocations succeed (non-null blocks, the second distinct
from the first), the construction reaches the traversal with a list of
exactly two nodes: `head` holds 1, its `next` is a second node holding 2 whose
`next` is `NULL`; the list is acyclic, its values are `[1, 2]`, and the
traversal ends having visited exactly `[1, 2]`. -/
theorem construct_builds_one_two (oracle : Nat → Ptr) (mem : Heap)
    (h0 : oracle 0 ≠ NULL) (h1 : oracle 1 ≠ NULL) (hne : oracle 1 ≠ oracle 0) :
    ∃ s, main_construct oracle (State.start mem) = Ctl.running s ∧
      s.head ≠ NULL ∧ (s.heap s.head).value = 1 ∧
      (s.heap s.head).next ≠ NULL ∧ (s.heap s.head).next ≠ s.head ∧
      (s.heap (s.heap s.head).next).value = 2 ∧
      (s.heap (s.heap s.head).next).next = NULL ∧
      IsList s.heap s.head [s.head, (s.heap s.head).next] ∧
      [s.head, (s.heap s.head).next].Nodup ∧
      valuesAt s.heap [s.head, (s.heap s.head).next] = [1, 2] ∧
      ∀ fuel, 3 ≤ fuel → ∃ sf, main_traverse fuel s = some sf ∧
        sf.visited = [1, 2] ∧ sf.checks = [s.head, (s.heap s.head).next, NULL] := by
  have hl := builtHeap_isList mem (oracle 0) (oracle 1) h0 h1 hne
  have hh := builtHeap_head mem (oracle 0) (oracle 1) hne
  have hs := builtHeap_second mem (oracle 0) (oracle 1)
  have hv : valuesAt (builtHeap mem (oracle 0) (oracle 1)) [oracle 0, oracle 1] = [1, 2] := by
    simp [valuesAt, hh, hs]
  rw [main_construct_ok oracle mem h0 h1]
  refine ⟨_, rfl, ?_⟩
  simp only [hh, hs]
  refine ⟨h0, trivial, h1, hne, trivial, trivial, hl, hl.nodup, hv, ?_⟩
  intro fuel hf
  unfold main_traverse
  rw [main_loop_spec [oracle 0, oracle 1] fuel _ hl (by simpa using hf)]
  refine ⟨_, rfl, ?_, rfl⟩
  simp only [hv]
  rfl

theorem construct_builds_one_two_witness :
    goodMalloc 0 ≠ NULL ∧ goodMalloc 1 ≠ NULL ∧ goodMalloc 1 ≠ goodMalloc 0 ∧
    ∃ s, main_construct goodMalloc (State.start junkHeap) = Ctl.running s ∧
      s.head ≠ NULL ∧ (s.heap s.head).value = 1 ∧
      (s.heap s.head).next ≠ NULL ∧ (s.heap s.head).next ≠ s.head ∧
      (s.heap (s.heap s.head).next).value = 2 ∧
      (s.heap (s.heap s.head).next).next = NULL ∧
      IsList s.heap s.head [s.head, (s.heap s.head).next] ∧
      [s.head, (s.heap s.head).next].Nodup ∧
      valuesAt s.heap [s.head, (s.heap s.head).next] = [1, 2] ∧
      ∀ fuel, 3 ≤ fuel → ∃ sf, main_traverse fuel s = some sf ∧
        sf.visited = [1, 2] ∧ sf.checks = [s.head, (s.heap s.head).next, NULL] :=
  ⟨by decide, by decide, by decide,
   construct_builds_one_two goodMalloc junkHeap (by decide) (by decide) (by decide)⟩

/-- C9: in the traversal of a list of `N` nodes in the heap, the loop
condition is evaluated `N + 1` times; the first `N` evaluations see a
non-null cursor, the last one sees `NULL` and ends the loop, so the cursor is
`NULL` at exactly one evaluation, the final one. -/
theorem traverse_null_once_last (s : State) (ps : List Ptr) (fuel : Nat)
    (hl : IsList s.heap s.head ps) (hf : ps.length < fuel) :
    ∃ sf cs, main_traverse fuel s = some sf ∧ sf.checks = s.checks ++ cs ∧
      cs.length = ps.length + 1 ∧
      (∀ i, i < ps.length → ∃ p, cs[i]? = some p ∧ p ≠ NULL) ∧
      cs[ps.length]? = some NULL ∧
      cs.count NULL = 1 ∧
      sf.current = NULL := by
  have hnn := hl.ne_null
  unfold main_traverse
  rw [main_loop_spec ps fuel _ hl hf]
  refine ⟨_, ps ++ [NULL], rfl, ?_, ?_, ?_, ?_, ?_, rfl⟩
  · simp [List.append_assoc]
  · simp
  · intro i hi
    refine ⟨ps[i], ?_, hnn _ (List.getElem_mem _)⟩
    rw [List.getElem?_append_left hi]
    exact List.getElem?_eq_getElem hi
  · simp
  · rw [List.count_append, List.count_eq_zero.mpr (fun hmem => hnn NULL hmem rfl)]
    simp

theorem traverse_null_once_last_witness :
    IsList sampleState.heap sampleState.head [4, 9, 2] ∧ [4, 9, 2].length < 4 ∧
    ∃ sf cs, main_traverse 4 sampleState = some sf ∧ sf.checks = sampleState.checks ++ cs ∧
      cs.length = [4, 9, 2].length + 1 ∧
      (∀ i, i < [4, 9, 2].length → ∃ p, cs[i]? = some p ∧ p ≠ NULL) ∧
      cs[[4, 9, 2].length]? = some NULL ∧
      cs.count NULL = 1 ∧
      sf.current = NULL :=
  ⟨by decide, by decide, traverse_null_once_last sampleState [4, 9, 2] 4 (by decide) (by decide)⟩

/-- C10: the traversal of a list in the heap ends with the heap (every node's
value and `next`) and the variable `head` as they were before the loop, only
the cursor having moved (to `NULL`); the same list is still in the heap, and
a second traversal restarted from `head` visits the same values again. -/
theorem traverse_preserves_list (s : State) (ps : List Ptr) (fuel : Nat)
    (hl : IsList s.heap s.head ps) (hf : ps.length < fuel) :
    ∃ sf, main_traverse fuel s = some sf ∧
      sf.heap = s.heap ∧ sf.head = s.head ∧ sf.current = NULL ∧
      sf.mallocCalls = s.mallocCalls ∧
      IsList sf.heap sf.head ps ∧
      sf.visited = s.visited ++ valuesAt s.heap ps ∧
      ∃ sg, main_traverse fuel sf = some sg ∧
        sg.visited = sf.visited ++ valuesAt s.heap ps ∧
        sg.heap = s.heap ∧ sg.head = s.head := by
  unfold main_traverse
  rw [main_loop_spec ps fuel _ hl hf]
  refine ⟨_, rfl, rfl, rfl, rfl, rfl, hl, rfl, ?_⟩
  simp only []
  rw [main_loop_spec ps fuel _ hl hf]
  exact ⟨_, rfl, rfl, rfl, rfl⟩

theorem traverse_preserves_list_witness :
    IsList sampleState.heap sampleState.head [4, 9, 2] ∧ [4, 9, 2].length < 4 ∧
    ∃ sf, main_traverse 4 sampleState = some sf ∧
      sf.heap = sampleState.heap ∧ sf.head = sampleState.head ∧ sf.current = NULL ∧
      sf.mallocCalls = sampleState.mallocCalls ∧
      IsList sf.heap sf.head [4, 9, 2] ∧
      sf.visited = sampleState.visited ++ valuesAt sampleState.heap [4, 9, 2] ∧
      ∃ sg, main_traverse 4 sf = some sg ∧
        sg.visited = sf.visited ++ valuesAt sampleState.heap [4, 9, 2] ∧
        sg.heap = sampleState.heap ∧ sg.head = sampleState.head :=
  ⟨by decide, by decide, traverse_preserves_list sampleState [4, 9, 2] 4 (by decide) (by decide)⟩

end LinkedList

namespace Temperature

/-! ## The temperature table -/

/-- Once the temperature loop has ended with some fuel, more fuel does not
change its result. -/
theorem main_loop_mono (fuel : Nat) : ∀ (t r : State),
    main_loop fuel t = some r → ∀ k, main_loop (fuel + k) t = some r := by
  induction fuel with
  | zero => intro t r h; simp [main_loop] at h
  | succ n ih =>
    intro t r h k
    rw [Nat.add_right_comm]
    simp only [main_loop] at h ⊢
    split
    · rename_i hc
      rw [if_pos hc] at h
      exact ih _ _ h k
    · rename_i hc
      rw [if_neg hc] at h
      exact h

/-- C7: `main` of `temperature.c` ends for every fuel of at least 17 and
returns 0, having printed exactly 16 rows whose Fahrenheit column is
`0, 20, ..., 300` in this order (row `i` has `fahr = 20 * i`), each row being
`fahr`, a tab, `celsius`, a newline; the loop ends with `fahr = 320`, and with
fuel for 16 evaluations of the condition or fewer it has not ended. -/
theorem temperature_table (fuel : Nat) (hf : 17 ≤ fuel) :
    (∃ t, main fuel = some (0, t) ∧
      t.rows.length = 16 ∧
      t.rows.map Prod.fst = (List.range 16).map (fun i => 20 * (i : Int)) ∧
      t.rows.map Prod.fst = [0, 20, 40, 60, 80, 100, 120, 140, 160, 180, 200, 220, 240,
        260, 280, 300] ∧
      (∀ r ∈ t.rows, r.2 = celsius_of r.1) ∧
      t.stdout = String.join
        (t.rows.map (fun r => fmt_d r.1 ++ "\t" ++ fmt_d r.2 ++ "\n")) ∧
      t.fahr = 320 ∧ ¬ t.fahr ≤ UPPER) ∧
    (∀ n, n ≤ 16 → main n = none) := by
  constructor
  · have h17 : ∃ t, main_loop 17 { fahr := LOWER, stdout := "", rows := [] } = some t ∧
        t.rows.length = 16 ∧
        t.rows.map Prod.fst = (List.range 16).map (fun i => 20 * (i : Int)) ∧
        t.rows.map Prod.fst = [0, 20, 40, 60, 80, 100, 120, 140, 160, 180, 200, 220, 240,
          260, 280, 300] ∧
        (∀ r ∈ t.rows, r.2 = celsius_of r.1) ∧
        t.stdout = String.join
          (t.rows.map (fun r => fmt_d r.1 ++ "\t" ++ fmt_d r.2 ++ "\n")) ∧
        t.fahr = 320 ∧ ¬ t.fahr ≤ UPPER := by
      refine ⟨_, rfl, ?_⟩
      decide
    obtain ⟨t, ht, hP⟩ := h17
    obtain ⟨k, rfl⟩ := Nat.exists_eq_add_of_le hf
    refine ⟨t, ?_, hP⟩
    unfold main
    rw [main_loop_mono 17 _ t ht k]
  · intro n hn
    interval_cases n <;> rfl

theorem temperature_table_witness :
    17 ≤ 17 ∧
    ((∃ t, main 17 = some (0, t) ∧
      t.rows.length = 16 ∧
      t.rows.map Prod.fst = (List.range 16).map (fun i => 20 * (i : Int)) ∧
      t.rows.map Prod.fst = [0, 20, 40, 60, 80, 100, 120, 140, 160, 180, 200, 220, 240,
        260, 280, 300] ∧
      (∀ r ∈ t.rows, r.2 = celsius_of r.1) ∧
      t.stdout = String.join
        (t.rows.map (fun r => fmt_d r.1 ++ "\t" ++ fmt_d r.2 ++ "\n")) ∧
      t.fahr = 320 ∧ ¬ t.fahr ≤ UPPER) ∧
    (∀ n, n ≤ 16 → main n = none)) :=
  ⟨by decide, temperature_table 17 (by decide)⟩

/-! ## Arithmetic of the temperature table -/

/-- An integer in the range of `int` is left as it is by `wrap32`. -/
theorem wrap32_of_inInt32 (x : Int) (h : inInt32 x) : wrap32 x = x := by
  unfold inInt32 at h
  unfold wrap32
  omega

/-- Division by 9 truncating toward zero, in terms of the flooring division. -/
theorem tdiv_nine (a : Int) : Int.tdiv a 9 = if 0 ≤ a then a / 9 else -((-a) / 9) := by
  split
  · rename_i h
    exact Int.tdiv_eq_ediv h (by decide)
  · rename_i h
    have h1 : Int.tdiv (-a) 9 = (-a) / 9 := Int.tdiv_eq_ediv (by omega) (by decide)
    rw [← h1, Int.neg_tdiv, neg_neg]

/-- Where neither the subtraction nor the product leaves the range of `int`,
the wrapped expression is the unbounded one. -/
theorem celsius_of_eq_unbounded (fahr : Int) (hlo : -400000000 ≤ fahr) (hhi : fahr ≤ 400000000) :
    celsius_of fahr = celsius_unbounded fahr := by
  unfold celsius_of celsius_unbounded
  rw [wrap32_of_inInt32 (fahr - 32) (by unfold inInt32; omega),
    wrap32_of_inInt32 (5 * (fahr - 32)) (by unfold inInt32; omega)]
  apply wrap32_of_inInt32
  rw [tdiv_nine]
  unfold inInt32
  split <;> omega

/-- Truncating integer division by 9 is the truncation toward zero of the
exact rational quotient. -/
theorem truncToZero_div_nine (a : Int) : truncToZero ((a : ℚ) / 9) = Int.tdiv a 9 := by
  have hfloor : ∀ b : Int, ⌊(b : ℚ) / 9⌋ = b / 9 := by
    intro b
    have := Rat.floor_intCast_div_natCast b 9
    simpa using this
  rw [tdiv_nine]
  unfold truncToZero
  by_cases h : 0 ≤ a
  · have hq : (0 : ℚ) ≤ (a : ℚ) / 9 := div_nonneg (by exact_mod_cast h) (by norm_num)
    rw [if_pos hq, if_pos h, hfloor]
  · have hq : ¬ (0 : ℚ) ≤ (a : ℚ) / 9 := by
      have : (a : ℚ) < 0 := by exact_mod_cast (not_le.mp h)
      have : (a : ℚ) / 9 < 0 := div_neg_of_neg_of_pos this (by norm_num)
      exact not_le.mpr this
    rw [if_neg hq, if_neg h]
    have e : (a : ℚ) / 9 = -(((-a : Int) : ℚ) / 9) := by push_cast; ring
    rw [e, Int.ceil_neg, hfloor]

/-- With fuel for 17 evaluations of the loop condition or more, `main` gives
what it gives with 17. -/
theorem main_of_enough_fuel (fuel : Nat) (hf : 17 ≤ fuel) : main fuel = main 17 := by
  obtain ⟨k, rfl⟩ := Nat.exists_eq_add_of_le hf
  have h17 : ∃ t, main_loop 17 { fahr := LOWER, stdout := "", rows := [] } = some t :=
    ⟨_, rfl⟩
  obtain ⟨t, ht⟩ := h17
  unfold main
  rw [main_loop_mono 17 _ t ht k, ht]

/-- From a start that is not too negative, the wrapped loop and the loop on
the unbounded integers give the same result, whatever the fuel. -/
theorem main_loop_eq_unbounded (fuel : Nat) : ∀ t : State, -400000000 ≤ t.fahr →
    main_loop fuel t = main_loop_unbounded fuel t := by
  induction fuel with
  | zero => intro t _; rfl
  | succ n ih =>
    intro t hlo
    simp only [main_loop, main_loop_unbounded]
    split
    · rename_i hc
      have hup : t.fahr ≤ 300 := hc
      rw [celsius_of_eq_unbounded t.fahr hlo (by omega),
        wrap32_of_inInt32 (t.fahr + STEP) (by unfold inInt32 STEP; omega)]
      apply ih
      show -400000000 ≤ t.fahr + STEP
      unfold STEP
      omega
    · rfl

/-! ## The Celsius column -/

/-- C11: `main` of `temperature.c` (fuel of at least 17) prints in every row
the exact rational `5 * (fahr - 32) / 9` truncated toward zero, which is C
integer division and not the floor: the rows for `fahr = 0` and `fahr = 20`
hold `-17` and `-6` where the floor would give `-18` and `-7`, and the whole
Celsius column is `-17, -6, 4, 15, 26, 37, 48, 60, 71, 82, 93, 104, 115, 126,
137, 148`, as the text printed shows. -/
theorem celsius_truncates_toward_zero (fuel : Nat) (hf : 17 ≤ fuel) :
    ∃ t, main fuel = some (0, t) ∧
      (∀ r ∈ t.rows, r.2 = truncToZero (5 * ((r.1 : ℚ) - 32) / 9)) ∧
      (∀ r ∈ t.rows, r.2 = Int.tdiv (5 * (r.1 - 32)) 9) ∧
      t.rows.take 2 = [(0, -17), (20, -6)] ∧
      ⌊(5 * (((0 : Int) : ℚ) - 32) / 9)⌋ = -18 ∧
      ⌊(5 * (((20 : Int) : ℚ) - 32) / 9)⌋ = -7 ∧
      t.rows.map Prod.snd = [-17, -6, 4, 15, 26, 37, 48, 60, 71, 82, 93, 104, 115, 126,
        137, 148] ∧
      t.stdout = "0\t-17\n20\t-6\n40\t4\n60\t15\n80\t26\n100\t37\n120\t48\n140\t60\n160\t71\n180\t82\n200\t93\n220\t104\n240\t115\n260\t126\n280\t137\n300\t148\n" := by
  have h17 : ∃ t, main 17 = some (0, t) ∧
      (∀ r ∈ t.rows, r.2 = Int.tdiv (5 * (r.1 - 32)) 9) ∧
      t.rows.take 2 = [(0, -17), (20, -6)] ∧
      t.rows.map Prod.snd = [-17, -6, 4, 15, 26, 37, 48, 60, 71, 82, 93, 104, 115, 126,
        137, 148] ∧
      t.stdout = "0\t-17\n20\t-6\n40\t4\n60\t15\n80\t26\n100\t37\n120\t48\n140\t60\n160\t71\n180\t82\n200\t93\n220\t104\n240\t115\n260\t126\n280\t137\n300\t148\n" := by
    refine ⟨_, rfl, ?_⟩
    decide
  have hfloor : ∀ b : Int, ⌊(b : ℚ) / 9⌋ = b / 9 := by
    intro b
    have := Rat.floor_intCast_div_natCast b 9
    simpa using this
  obtain ⟨t, ht, hdiv, htake, hcol, hout⟩ := h17
  rw [main_of_enough_fuel fuel hf]
  refine ⟨t, ht, ?_, hdiv, htake, ?_, ?_, hcol, hout⟩
  · intro r hr
    rw [hdiv r hr, ← truncToZero_div_nine]
    push_cast
    rfl
  · have e : (5 * (((0 : Int) : ℚ) - 32) / 9) = (((-160 : Int) : ℚ) / 9) := by norm_num
    rw [e, hfloor]
    decide
  · have e : (5 * (((20 : Int) : ℚ) - 32) / 9) = (((-60 : Int) : ℚ) / 9) := by norm_num
    rw [e, hfloor]
    decide

theorem celsius_truncates_toward_zero_witness :
    17 ≤ 17 ∧
    ∃ t, main 17 = some (0, t) ∧
      (∀ r ∈ t.rows, r.2 = truncToZero (5 * ((r.1 : ℚ) - 32) / 9)) ∧
      (∀ r ∈ t.rows, r.2 = Int.tdiv (5 * (r.1 - 32)) 9) ∧
      t.rows.take 2 = [(0, -17), (20, -6)] ∧
      ⌊(5 * (((0 : Int) : ℚ) - 32) / 9)⌋ = -18 ∧
      ⌊(5 * (((20 : Int) : ℚ) - 32) / 9)⌋ = -7 ∧
      t.rows.map Prod.snd = [-17, -6, 4, 15, 26, 37, 48, 60, 71, 82, 93, 104, 115, 126,
        137, 148] ∧
      t.stdout = "0\t-17\n20\t-6\n40\t4\n60\t15\n80\t26\n100\t37\n120\t48\n140\t60\n160\t71\n180\t82\n200\t93\n220\t104\n240\t115\n260\t126\n280\t137\n300\t148\n" :=
  ⟨by decide, celsius_truncates_toward_zero 17 (by decide)⟩

/-- C12: no `int` operation of the temperature loop overflows. In every row
`fahr`, `fahr - 32`, `5 * (fahr - 32)`, the quotient and the incremented
`fahr` lie in the range of a 32-bit `int`, as does the last value 320 of
`fahr`; the Celsius printed is the one computed on the unbounded integers, and
`main` with its operations wrapped equals `main` on the unbounded integers for
every fuel. -/
theorem no_int_overflow (fuel : Nat) (hf : 17 ≤ fuel) :
    (∀ n, main n = main_unbounded n) ∧
    ∃ t, main fuel = some (0, t) ∧
      (∀ r ∈ t.rows, inInt32 r.1 ∧ inInt32 (r.1 - 32) ∧ inInt32 (5 * (r.1 - 32)) ∧
        inInt32 (Int.tdiv (5 * (r.1 - 32)) 9) ∧ inInt32 (r.1 + STEP) ∧
        r.2 = celsius_unbounded r.1) ∧
      t.fahr = 320 ∧ inInt32 t.fahr := by
  constructor
  · intro n
    unfold main main_unbounded
    rw [main_loop_eq_unbounded n _ (by decide)]
  · have h17 : ∃ t, main 17 = some (0, t) ∧
        (∀ r ∈ t.rows, inInt32 r.1 ∧ inInt32 (r.1 - 32) ∧ inInt32 (5 * (r.1 - 32)) ∧
          inInt32 (Int.tdiv (5 * (r.1 - 32)) 9) ∧ inInt32 (r.1 + STEP) ∧
          r.2 = celsius_unbounded r.1) ∧
        t.fahr = 320 ∧ inInt32 t.fahr := by
      refine ⟨_, rfl, ?_⟩
      decide
    rw [main_of_enough_fuel fuel hf]
    exact h17

theorem no_int_overflow_witness :
    17 ≤ 17 ∧
    ((∀ n, main n = main_unbounded n) ∧
    ∃ t, main 17 = some (0, t) ∧
      (∀ r ∈ t.rows, inInt32 r.1 ∧ inInt32 (r.1 - 32) ∧ inInt32 (5 * (r.1 - 32)) ∧
        inInt32 (Int.tdiv (5 * (r.1 - 32)) 9) ∧ inInt32 (r.1 + STEP) ∧
        r.2 = celsius_unbounded r.1) ∧
      t.fahr = 320 ∧ inInt32 t.fahr) :=
  ⟨by decide, no_int_overflow 17 (by decide)⟩

/-- C13: the Celsius column is strictly increasing. For every `fahr` from 0
to 280 the expression gives strictly more at `fahr + 20` than at `fahr`, and
in the table printed by `main` (fuel of at least 17) every pair of adjacent
rows (the rows zipped with their tail) is a row `fahr` and the row `fahr + 20`
with a strictly greater Celsius; of any two rows `fahr` and `fahr + 20` the
second has the greater Celsius, and every row from 0 to 280 has such a
successor. -/
theorem celsius_strictly_increasing (fuel : Nat) (hf : 17 ≤ fuel) :
    (∀ fahr : Int, 0 ≤ fahr → fahr ≤ 280 → celsius_of fahr < celsius_of (fahr + 20)) ∧
    ∃ t, main fuel = some (0, t) ∧
      (∀ p ∈ t.rows.zip t.rows.tail, p.2.1 = p.1.1 + 20 ∧ p.1.2 < p.2.2) ∧
      (∀ a ∈ t.rows, ∀ b ∈ t.rows, b.1 = a.1 + 20 → a.2 < b.2) ∧
      (∀ a ∈ t.rows, 0 ≤ a.1 ∧ a.1 ≤ 280 → ∃ b ∈ t.rows, b.1 = a.1 + 20) := by
  constructor
  · intro fahr hlo hhi
    rw [celsius_of_eq_unbounded fahr (by omega) (by omega),
      celsius_of_eq_unbounded (fahr + 20) (by omega) (by omega)]
    unfold celsius_unbounded
    rw [tdiv_nine, tdiv_nine]
    split <;> split <;> omega
  · have h17 : ∃ t, main 17 = some (0, t) ∧
        (∀ p ∈ t.rows.zip t.rows.tail, p.2.1 = p.1.1 + 20 ∧ p.1.2 < p.2.2) ∧
        (∀ a ∈ t.rows, ∀ b ∈ t.rows, b.1 = a.1 + 20 → a.2 < b.2) ∧
        (∀ a ∈ t.rows, 0 ≤ a.1 ∧ a.1 ≤ 280 → ∃ b ∈ t.rows, b.1 = a.1 + 20) := by
      refine ⟨_, rfl, ?_⟩
      decide
    rw [main_of_enough_fuel fuel hf]
    exact h17

theorem celsius_strictly_increasing_witness :
    17 ≤ 17 ∧
    ((∀ fahr : Int, 0 ≤ fahr → fahr ≤ 280 → celsius_of fahr < celsius_of (fahr + 20)) ∧
    ∃ t, main 17 = some (0, t) ∧
      (∀ p ∈ t.rows.zip t.rows.tail, p.2.1 = p.1.1 + 20 ∧ p.1.2 < p.2.2) ∧
      (∀ a ∈ t.rows, ∀ b ∈ t.rows, b.1 = a.1 + 20 → a.2 < b.2) ∧
      (∀ a ∈ t.rows, 0 ≤ a.1 ∧ a.1 ≤ 280 → ∃ b ∈ t.rows, b.1 = a.1 + 20)) :=
  ⟨by decide, celsius_strictly_increasing 17 (by decide)⟩

end Temperature

end Chelsy
